import Mathlib

/-!
Verification of the comprimirfotos HTTP service.

The repository contains two variants of a small Express server that accepts
multipart file uploads and produces ZIP archives:

* a session-scoped API (an in-memory `sessions` map keyed by `chatId`, with
  routes `/iniciar`, `/upload`, `/comprimir`), and
* a stateless API (multer `fileFilter`, routes `/comprimir`,
  `/descargar/:filename`, plus a WhatsApp webhook).

This file gives a shallow embedding of the code: pure functions (posix path
handling, storage-name generation, the upload file filter) are translated
directly; the stateful route handlers become explicit state-passing functions
over a registry type; the fallibility of archive construction is an oracle
parameter, and filesystem effects are recorded in each handler's outcome
(archive paths handed to the ZIP builder, cleanups scheduled).
-/

namespace ComprimirFotos

/-! ## Posix path model (Node `path.join`, `path.basename`, `path.extname`)

The server resolves paths with Node's posix path functions.  We model a path
as its list of characters; `splitSegs` cuts it at every slash, `normStep`
performs one step of posix normalization (dropping empty and `.` segments and
resolving `..`), and `joinSegs` renders segments back. -/

/-- Split a character list into segments at every slash; `cur` holds the
(reversed) characters of the segment currently being read. -/
def splitSegsAux : List Char → List Char → List (List Char)
  | [], cur => [cur.reverse]
  | c :: rest, cur =>
    if c = '/' then cur.reverse :: splitSegsAux rest [] else splitSegsAux rest (c :: cur)

/-- Segments of a path, split at every slash. -/
def splitSegs (p : List Char) : List (List Char) :=
  splitSegsAux p []

/-- The path-traversal segment `..` as a character list. -/
def dd : List Char := ['.', '.']

/-- One step of posix path normalization over a stack `acc` of already
processed segments (most recent first): empty and `.` segments are dropped,
`..` pops the stack (or is kept for a relative path with nothing to pop),
and any other segment is pushed. -/
def normStep (isAbs : Bool) (acc : List (List Char)) (seg : List Char) : List (List Char) :=
  if seg = [] ∨ seg = ['.'] then acc
  else if seg = dd then
    match acc with
    | [] => if isAbs then [] else [dd]
    | a :: rest => if a = dd then dd :: a :: rest else rest
  else seg :: acc

/-- Render a list of segments, separating them by slashes. -/
def joinSegs : List (List Char) → List Char
  | [] => []
  | [s] => s
  | s :: rest => s ++ '/' :: joinSegs rest

/-- Whether a path starts with a slash. -/
def isAbsolute (p : List Char) : Bool :=
  match p with
  | '/' :: _ => true
  | _ => false

/-- Posix path normalization (the semantics of Node `path.normalize`, minus
preservation of a trailing slash, which no call site of this code base
produces). -/
def normalizeChars (p : List Char) : List Char :=
  let ab := isAbsolute p
  let segs := (splitSegs p).foldl (normStep ab) []
  let body := joinSegs segs.reverse
  if ab then '/' :: body
  else if body = [] then ['.'] else body

/-- Node `path.join` on two components: concatenate with a slash and
normalize (empty components are skipped; joining nothing yields `.`). -/
def pathJoinChars (a b : List Char) : List Char :=
  if a = [] then (if b = [] then ['.'] else normalizeChars b)
  else if b = [] then normalizeChars a
  else normalizeChars (a ++ '/' :: b)

/-- Node `path.join` on strings. -/
def pathJoin (a b : String) : String :=
  String.mk (pathJoinChars a.data b.data)

/-- Remove trailing slashes (Node `path.basename` ignores them). -/
def dropTrailingSlashes (p : List Char) : List Char :=
  (p.reverse.dropWhile (fun c => c = '/')).reverse

/-- Node `path.basename` on character lists: the last slash-separated
segment, ignoring trailing slashes. -/
def basenameChars (p : List Char) : List Char :=
  (splitSegs (dropTrailingSlashes p)).getLastD []

/-- Node `path.basename` on strings. -/
def basename (p : String) : String :=
  String.mk (basenameChars p.data)

/-- Index of the last dot of a segment, if any. -/
def lastDotIdx (b : List Char) : Option Nat :=
  (b.reverse.findIdx? (fun c => c = '.')).map (fun i => b.length - 1 - i)

/-- Node `path.extname` on character lists: the suffix of the basename from
its last dot (inclusive); there is no extension when the basename has no dot
or when every character before the last dot is itself a dot (`.bashrc`,
`..`). -/
def extnameChars (p : List Char) : List Char :=
  let b := basenameChars p
  match lastDotIdx b with
  | none => []
  | some k => if (b.take k).all (fun c => c = '.') then [] else b.drop k

/-- Node `path.extname` on strings. -/
def extname (p : String) : String :=
  String.mk (extnameChars p.data)

/-! ## Generic string helpers -/

/-- Whether `hay` begins with `pat`. -/
def startsWithChars : List Char → List Char → Bool
  | [], _ => true
  | _ :: _, [] => false
  | a :: as, b :: bs => a = b && startsWithChars as bs

/-- Whether `hay` contains `pat` as a contiguous substring. -/
def containsSub : List Char → List Char → Bool
  | pat, [] => startsWithChars pat []
  | pat, c :: rest => startsWithChars pat (c :: rest) || containsSub pat rest

/-- ASCII lowercasing of a string, character by character (the model of
JavaScript `toLowerCase()` restricted to ASCII, which covers every string the
allow-list test is interested in). -/
def toLowerStr (s : String) : String :=
  String.mk (s.data.map Char.toLower)

/-- Decimal digit characters. -/
def digitChar (d : Nat) : Char :=
  if d = 0 then '0' else if d = 1 then '1' else if d = 2 then '2' else if d = 3 then '3'
  else if d = 4 then '4' else if d = 5 then '5' else if d = 6 then '6' else if d = 7 then '7'
  else if d = 8 then '8' else '9'

/-- Decimal rendering of a natural number, fuel-indexed (the fuel `n + 1`
always suffices). -/
def natToCharsAux : Nat → Nat → List Char → List Char
  | 0, _, acc => acc
  | fuel + 1, n, acc =>
    if n < 10 then digitChar n :: acc
    else natToCharsAux fuel (n / 10) (digitChar (n % 10) :: acc)

/-- Decimal rendering of a natural number (the model of JavaScript template
interpolation of `Date.now()` and `Math.round(...)` values). -/
def natToString (n : Nat) : String :=
  String.mk (natToCharsAux (n + 1) n [])

/-- A path lies inside directory `dir` when it is `dir` itself or extends
`dir` by a slash-separated suffix. -/
def isWithin (dir p : String) : Bool :=
  if p = dir then true else startsWithChars (dir.data ++ ['/']) p.data

/-! ## Shared data model

An uploaded file as multer records it: the untrusted client-supplied name,
the on-disk location assigned by the storage engine, the declared MIME type
and the declared size. -/

/-- One received file part (multer's per-file record, restricted to the
fields the handlers consume). -/
structure UploadedFile where
  originalname : String
  path : String
  mimetype : String
  size : Nat
deriving DecidableEq

/-! ## Session-scoped variant

Source: the unnamed server file (`sessions` map, `/iniciar`, `/upload`,
`/comprimir`).  The `sessions` JavaScript `Map` is modelled as a function
from keys to optional sessions; handlers pass the registry explicitly and
return the updated one. -/

namespace SessionApi

open ComprimirFotos

/-- A session: the ordered list of stored file paths contributed so far and
its creation time (`{files: string[], createdAt: number}`). -/
structure Session where
  files : List String
  createdAt : Nat
deriving DecidableEq

/-- The `sessions` map: a session per chat key. -/
abbrev Registry := String → Option Session

/-- The registry holding no session at all. -/
def emptyRegistry : Registry := fun _ => none

/-- `ensureSession`: return the session for `chatId`, inserting a fresh empty
one (created at `now`) when absent; returns the possibly-extended registry
together with the session the handler works on. -/
def ensureSession (r : Registry) (chatId : String) (now : Nat) : Registry × Session :=
  match r chatId with
  | some s => (r, s)
  | none =>
    let s : Session := { files := [], createdAt := now }
    (fun k => if k = chatId then some s else r k, s)

/-- JavaScript `x || dflt` over an optional string: an absent or empty string
falls through to the default. -/
def jsOr (x : Option String) (dflt : String) : String :=
  match x with
  | some s => if s = "" then dflt else s
  | none => dflt

/-- `getChatId`: `req.body?.chatId || req.query?.chatId || "default"`. -/
def getChatId (bodyChatId queryChatId : Option String) : String :=
  jsOr bodyChatId (jsOr queryChatId "default")

/-- `ROOT = "/tmp"`. -/
def ROOT : String := "/tmp"

/-- `UPLOAD_DIR = path.join(ROOT, "uploads")`. -/
def UPLOAD_DIR : String := pathJoin ROOT "uploads"

/-- `OUTPUT_DIR = path.join(ROOT, "paquetes")`. -/
def OUTPUT_DIR : String := pathJoin ROOT "paquetes"

/-- The regex `[^a-zA-Z0-9._-]` complement: characters the storage-name
sanitizer keeps. -/
def isSafeChar (c : Char) : Bool :=
  ('a' ≤ c && c ≤ 'z') || ('A' ≤ c && c ≤ 'Z') || ('0' ≤ c && c ≤ '9')
    || c == '.' || c == '_' || c == '-'

/-- One character of `originalname.replace(/[^a-zA-Z0-9._-]/g, "_")`. -/
def sanitizeChar (c : Char) : Char :=
  if isSafeChar c then c else '_'

/-- `originalname.replace(/[^a-zA-Z0-9._-]/g, "_")`. -/
def sanitize (s : String) : String :=
  String.mk (s.data.map sanitizeChar)

/-- The multer storage `filename` callback of the session variant:
`` `${Date.now()}-${safe}` ``. -/
def storageFilename (now : Nat) (originalname : String) : String :=
  natToString now ++ "-" ++ sanitize originalname

/-- The character class `[A-Za-z0-9._-]` exactly as the spec words it, stated
independently of the code's `isSafeChar` so the sanitizer can be checked
against it. -/
def specSafeChar (c : Char) : Prop :=
  ('A' ≤ c ∧ c ≤ 'Z') ∨ ('a' ≤ c ∧ c ≤ 'z') ∨ ('0' ≤ c ∧ c ≤ '9')
    ∨ c = '.' ∨ c = '_' ∨ c = '-'

instance (c : Char) : Decidable (specSafeChar c) := by
  unfold specSafeChar
  infer_instance

/-- Response body of `/upload`:
`{ok, chatId, recibidasAhora, totalSesion}`. -/
structure UploadResponse where
  ok : Bool
  chatId : String
  recibidasAhora : Nat
  totalSesion : Nat
deriving DecidableEq

/-- The `/upload` handler: resolve the chat key, ensure its session exists,
append the stored paths of the received files (`req.files` may be absent),
and report the count received now and the session's new total. -/
def uploadHandler (r : Registry) (bodyChatId queryChatId : Option String)
    (reqFiles : Option (List UploadedFile)) (now : Nat) : Registry × UploadResponse :=
  let chatId := getChatId bodyChatId queryChatId
  let es := ensureSession r chatId now
  let saved := (reqFiles.getD []).map (fun f => f.path)
  let s2 : Session := { es.2 with files := es.2.files ++ saved }
  let r2 : Registry := fun k => if k = chatId then some s2 else es.1 k
  (r2, { ok := true, chatId := chatId, recibidasAhora := saved.length,
         totalSesion := s2.files.length })

/-- Outcome of the `/comprimir` handler: the registry after the request, the
HTTP status answered (200 download, 400 empty session, 500 build failure)
and the archive paths handed to `compressZIP` (hence the only places an
archive file can appear on disk). -/
structure ComprimirOutcome where
  registry : Registry
  status : Nat
  zipCalls : List String

/-- The `/comprimir` handler.  `zipOk` is the environment oracle telling
whether `compressZIP` resolves or rejects for a given file list. -/
def comprimirHandler (r : Registry) (bodyChatId queryChatId : Option String)
    (now : Nat) (zipOk : List String → Bool) : ComprimirOutcome :=
  let chatId := getChatId bodyChatId queryChatId
  let es := ensureSession r chatId now
  let s := es.2
  if s.files.length = 0 then
    { registry := es.1, status := 400, zipCalls := [] }
  else
    let outName := "fotos_" ++ chatId ++ "_" ++ natToString now ++ ".zip"
    let outPath := pathJoin OUTPUT_DIR outName
    if zipOk s.files then
      { registry := fun k => if k = chatId then none else es.1 k,
        status := 200, zipCalls := [outPath] }
    else
      { registry := es.1, status := 500, zipCalls := [outPath] }

/-- The entries `compressZIP` adds for a list of stored paths:
`archive.file(f, {name: path.basename(f)})`, i.e. each pair is
(source path, in-archive entry name). -/
def compressZIPEntries (files : List String) : List (String × String) :=
  files.map (fun f => (f, basename f))

/-- The file list of a key (empty when no session exists). -/
def getFiles (r : Registry) (k : String) : List String :=
  match r k with
  | some s => s.files
  | none => []

/-- Run a sequence of `/upload` requests against the same body/query chat
fields, collecting each response's (recibidasAhora, totalSesion) pair. -/
def runUploads (bodyChatId queryChatId : Option String) (now : Nat) :
    Registry → List (List UploadedFile) → Registry × List (Nat × Nat)
  | r, [] => (r, [])
  | r, files :: rest =>
    let out := uploadHandler r bodyChatId queryChatId (some files) now
    let next := runUploads bodyChatId queryChatId now out.1 rest
    (next.1, (out.2.recibidasAhora, out.2.totalSesion) :: next.2)

/-- The counts the spec predicts for a sequence of appends: each call of `n`
files reports `n` received now and the running total so far. -/
def specTotals (base : Nat) : List Nat → List (Nat × Nat)
  | [] => []
  | n :: rest => (n, base + n) :: specTotals (base + n) rest

end SessionApi

/-! ## Stateless variant

Source: `src/index.js` (multer with `fileFilter` and limits, `createZip`,
`/comprimir`, `/descargar/:filename`).  `__dirname` depends on where the
server is deployed; we fix the representative `/app`. -/

namespace StatelessApi

open ComprimirFotos

/-- Modelled: `__dirname` of the deployed `index.js` (any absolute,
already-normalized directory; we fix a representative). -/
def dirnameVal : String := "/app"

/-- `UPLOAD_DIR = path.join(__dirname, 'uploads')`. -/
def UPLOAD_DIR : String := pathJoin dirnameVal "uploads"

/-- `OUTPUT_DIR = path.join(__dirname, 'paquetes')`. -/
def OUTPUT_DIR : String := pathJoin dirnameVal "paquetes"

/-- `limits: {fileSize: 25 * 1024 * 1024}`. -/
def MAX_FILE_SIZE : Nat := 25 * 1024 * 1024

/-- `.array('files', 10)`. -/
def MAX_FILES : Nat := 10

/-- The alternatives of the regex `/jpeg|jpg|png|gif|pdf|zip/`. -/
def allowTokens : List String := ["jpeg", "jpg", "png", "gif", "pdf", "zip"]

/-- `/jpeg|jpg|png|gif|pdf|zip/.test(s)`: whether `s` contains one of the
alternatives as a substring. -/
def regexTest (s : String) : Bool :=
  allowTokens.any (fun t => containsSub t.data s.data)

/-- The multer `fileFilter`: accept when both the declared MIME type and the
lowercased extension of the original name pass the regex test. -/
def fileFilter (f : UploadedFile) : Bool :=
  regexTest f.mimetype && regexTest (toLowerStr (extname f.originalname))

/-- The storage `filename` callback of the stateless variant:
`Date.now() + '-' + Math.round(Math.random() * 1E9)` followed by
`path.extname(file.originalname)`. -/
def storageFilename (now rand : Nat) (originalname : String) : String :=
  natToString now ++ "-" ++ natToString rand ++ extname originalname

/-- Multer's sequential processing of the request's file parts under the
file-count cap: each part within the cap is written iff it passes
`fileFilter` and the size limit; the first failing part (or the part beyond
the cap) aborts the request with an error.  Returns the parts written before
the abort and whether the whole request succeeded. -/
def processParts : Nat → List UploadedFile → List UploadedFile × Bool
  | _, [] => ([], true)
  | 0, _ :: _ => ([], false)
  | cap + 1, f :: rest =>
    if fileFilter f = true ∧ f.size ≤ MAX_FILE_SIZE then
      let pr := processParts cap rest
      (f :: pr.1, pr.2)
    else ([], false)

/-- The entries `createZip` adds:
`archive.file(file.path, {name: file.originalname || path.basename(file.path)})`. -/
def createZipEntries (files : List UploadedFile) : List (String × String) :=
  files.map (fun f =>
    (f.path, if f.originalname = "" then basename f.path else f.originalname))

/-- Outcome of the stateless `/comprimir` handler: HTTP status, the `code`
field of an error body, the value of `req.files` visible to the handler
(the parts multer wrote), the archive paths handed to `createZip`, and the
cleanups scheduled via `setTimeout` as (delay in ms, paths to unlink). -/
structure ComprimirOutcome where
  status : Nat
  code : String
  files : List UploadedFile
  zipCalls : List String
  cleanupScheduled : List (Nat × List String)
deriving DecidableEq

/-- The stateless `/comprimir` handler.  `zipOk` is the environment oracle
telling whether `createZip` resolves or rejects. -/
def comprimirHandler (parts : List UploadedFile) (now : Nat)
    (zipOk : List UploadedFile → Bool) : ComprimirOutcome :=
  let pr := processParts MAX_FILES parts
  if pr.2 = false then
    { status := 400, code := "UPLOAD_ERROR", files := pr.1,
      zipCalls := [], cleanupScheduled := [] }
  else if pr.1.length = 0 then
    { status := 400, code := "NO_FILES", files := pr.1,
      zipCalls := [], cleanupScheduled := [] }
  else
    let zipFilename := "archivos-" ++ natToString now ++ ".zip"
    let zipPath := pathJoin OUTPUT_DIR zipFilename
    if zipOk pr.1 then
      { status := 200, code := "", files := pr.1, zipCalls := [zipPath],
        cleanupScheduled := [(5000, pr.1.map (fun f => f.path))] }
    else
      { status := 500, code := "COMPRESSION_ERROR", files := pr.1,
        zipCalls := [zipPath], cleanupScheduled := [] }

/-- Result of `/descargar/:filename`: 404 JSON, or a download of the
resolved path under the requested name. -/
inductive DescargarResult where
  | notFound
  | download (filePath : String) (filename : String)
deriving DecidableEq

/-- The `/descargar/:filename` handler: join the requested name onto
`OUTPUT_DIR` and stream it when it exists (`fsExists` is the filesystem
oracle). -/
def descargarHandler (fsExists : String → Bool) (filename : String) : DescargarResult :=
  let filePath := pathJoin OUTPUT_DIR filename
  if fsExists filePath then DescargarResult.download filePath filename
  else DescargarResult.notFound

end StatelessApi

/-! ## General lemmas -/

theorem data_append (a b : String) : (a ++ b).data = a.data ++ b.data := by
  cases a
  cases b
  rfl

theorem data_ne_nil_of_ne_empty {s : String} (h : s ≠ "") : s.data ≠ [] := by
  intro hd
  apply h
  calc s = String.mk s.data := rfl
    _ = String.mk [] := by rw [hd]
    _ = "" := rfl

theorem isSafeChar_iff (c : Char) :
    SessionApi.isSafeChar c = true ↔ SessionApi.specSafeChar c := by
  simp only [SessionApi.isSafeChar, SessionApi.specSafeChar, Bool.or_eq_true,
    Bool.and_eq_true, decide_eq_true_eq, beq_iff_eq]
  tauto

/-! ## C7: session-key resolution priority -/

/-- C7: in the session variant, the resolved session key is the body field
`chatId` when non-empty, else the query parameter `chatId` when non-empty,
else the fixed default string, checked in exactly that priority order. -/
theorem chatId_priority (bodyChatId queryChatId : Option String) :
    (∀ b, bodyChatId = some b → b ≠ "" →
       SessionApi.getChatId bodyChatId queryChatId = b)
    ∧ ((bodyChatId = none ∨ bodyChatId = some "") →
       ∀ q, queryChatId = some q → q ≠ "" →
       SessionApi.getChatId bodyChatId queryChatId = q)
    ∧ ((bodyChatId = none ∨ bodyChatId = some "") →
       (queryChatId = none ∨ queryChatId = some "") →
       SessionApi.getChatId bodyChatId queryChatId = "default") := by
  refine ⟨?_, ?_, ?_⟩
  · rintro b rfl hb
    simp [SessionApi.getChatId, SessionApi.jsOr, hb]
  · rintro (rfl | rfl) q rfl hq <;> simp [SessionApi.getChatId, SessionApi.jsOr, hq]
  · rintro (rfl | rfl) (rfl | rfl) <;> simp [SessionApi.getChatId, SessionApi.jsOr]

/-- Witness for `chatId_priority` at concrete inputs. -/
theorem chatId_priority_witness :
    SessionApi.getChatId (some "abc") (some "qqq") = "abc"
    ∧ SessionApi.getChatId (some "") (some "qqq") = "qqq"
    ∧ SessionApi.getChatId none none = "default" :=
  ⟨(chatId_priority (some "abc") (some "qqq")).1 "abc" rfl (by decide),
   (chatId_priority (some "") (some "qqq")).2.1 (Or.inr rfl) "qqq" rfl (by decide),
   (chatId_priority none none).2.2 (Or.inl rfl) (Or.inl rfl)⟩

/-! ## C8: generated storage names -/

/-- C8: each variant's generated storage name combines the request
timestamp with, respectively, the sanitized original name (session variant)
or a random integer plus the original extension (stateless variant), and
the sanitizer keeps exactly the characters of the class `[A-Za-z0-9._-]`,
replacing every other character with an underscore. -/
theorem storage_name_generation (now rand : Nat) (orig : String) (c : Char) :
    SessionApi.storageFilename now orig = natToString now ++ "-" ++ SessionApi.sanitize orig
    ∧ StatelessApi.storageFilename now rand orig
        = natToString now ++ "-" ++ natToString rand ++ extname orig
    ∧ (SessionApi.sanitize orig).data = orig.data.map SessionApi.sanitizeChar
    ∧ (SessionApi.specSafeChar c → SessionApi.sanitizeChar c = c)
    ∧ (¬ SessionApi.specSafeChar c → SessionApi.sanitizeChar c = '_') := by
  refine ⟨rfl, rfl, rfl, ?_, ?_⟩
  · intro h
    unfold SessionApi.sanitizeChar
    rw [if_pos ((isSafeChar_iff c).mpr h)]
  · intro h
    unfold SessionApi.sanitizeChar
    rw [if_neg (fun hc => h ((isSafeChar_iff c).mp hc))]

/-- Witness for `storage_name_generation` at concrete characters. -/
theorem storage_name_generation_witness :
    SessionApi.sanitizeChar 'a' = 'a' ∧ SessionApi.sanitizeChar ' ' = '_' :=
  ⟨(storage_name_generation 0 0 "" 'a').2.2.2.1 (by decide),
   (storage_name_generation 0 0 "" ' ').2.2.2.2 (by decide)⟩

/-! ## C5: appends accumulate in order -/

theorem uploadHandler_step (r : SessionApi.Registry) (key : String) (hk : key ≠ "")
    (files : List UploadedFile) (now : Nat) :
    SessionApi.getFiles (SessionApi.uploadHandler r (some key) none (some files) now).1 key
      = SessionApi.getFiles r key ++ files.map (fun f => f.path)
    ∧ ((SessionApi.uploadHandler r (some key) none (some files) now).1 key).isSome = true
    ∧ (SessionApi.uploadHandler r (some key) none (some files) now).2.recibidasAhora
        = files.length
    ∧ (SessionApi.uploadHandler r (some key) none (some files) now).2.totalSesion
        = (SessionApi.getFiles r key).length + files.length := by
  have hkey : SessionApi.getChatId (some key) none = key := by
    simp [SessionApi.getChatId, SessionApi.jsOr, hk]
  cases hr : r key with
  | some s =>
    refine ⟨?_, ?_, ?_, ?_⟩ <;>
      simp [SessionApi.uploadHandler, SessionApi.ensureSession, SessionApi.getFiles,
        hkey, hr]
  | none =>
    refine ⟨?_, ?_, ?_, ?_⟩ <;>
      simp [SessionApi.uploadHandler, SessionApi.ensureSession, SessionApi.getFiles,
        hkey, hr]

/-- C5: across any sequence of `/upload` calls for the same (non-empty)
session key, the session's file list accumulates the uploaded paths in call
order, preserving the order inside each call; a session is created when
absent, and each call reports the number received now together with the new
running total. -/
theorem upload_accumulation (r : SessionApi.Registry) (key : String) (hk : key ≠ "")
    (calls : List (List UploadedFile)) (now : Nat) :
    SessionApi.getFiles (SessionApi.runUploads (some key) none now r calls).1 key
      = SessionApi.getFiles r key
        ++ (calls.map (fun c => c.map (fun f => f.path))).flatten
    ∧ (SessionApi.runUploads (some key) none now r calls).2
        = SessionApi.specTotals (SessionApi.getFiles r key).length
            (calls.map (fun c => c.length))
    ∧ (calls ≠ [] →
        ((SessionApi.runUploads (some key) none now r calls).1 key).isSome = true) := by
  induction calls generalizing r with
  | nil => simp [SessionApi.runUploads, SessionApi.specTotals]
  | cons c rest ih =>
    obtain ⟨h1, h2, h3, h4⟩ := uploadHandler_step r key hk c now
    have ihr := ih (SessionApi.uploadHandler r (some key) none (some c) now).1
    refine ⟨?_, ?_, ?_⟩
    · calc SessionApi.getFiles
            (SessionApi.runUploads (some key) none now r (c :: rest)).1 key
          = SessionApi.getFiles
            (SessionApi.runUploads (some key) none now
              (SessionApi.uploadHandler r (some key) none (some c) now).1 rest).1 key := rfl
        _ = SessionApi.getFiles
              (SessionApi.uploadHandler r (some key) none (some c) now).1 key
            ++ (rest.map (fun d => d.map (fun f => f.path))).flatten := ihr.1
        _ = (SessionApi.getFiles r key ++ c.map (fun f => f.path))
            ++ (rest.map (fun d => d.map (fun f => f.path))).flatten := by rw [h1]
        _ = SessionApi.getFiles r key
            ++ ((c :: rest).map (fun d => d.map (fun f => f.path))).flatten := by
              simp [List.append_assoc]
    · calc (SessionApi.runUploads (some key) none now r (c :: rest)).2
          = ((SessionApi.uploadHandler r (some key) none (some c) now).2.recibidasAhora,
             (SessionApi.uploadHandler r (some key) none (some c) now).2.totalSesion)
            :: (SessionApi.runUploads (some key) none now
                 (SessionApi.uploadHandler r (some key) none (some c) now).1 rest).2 := rfl
        _ = (c.length, (SessionApi.getFiles r key).length + c.length)
            :: SessionApi.specTotals
                (SessionApi.getFiles
                  (SessionApi.uploadHandler r (some key) none (some c) now).1 key).length
                (rest.map (fun d => d.length)) := by
              rw [h3, h4, ihr.2.1]
        _ = SessionApi.specTotals (SessionApi.getFiles r key).length
              ((c :: rest).map (fun d => d.length)) := by
              rw [h1]
              simp [SessionApi.specTotals]
    · intro _
      cases rest with
      | nil => exact h2
      | cons d rest2 => exact ihr.2.2 (by simp)

/-- Witness for `upload_accumulation`: appending two files then one file to
a fresh key yields the three paths in order, with totals (2, 2) then
(1, 3). -/
theorem upload_accumulation_witness :
    SessionApi.getFiles
      (SessionApi.runUploads (some "abc") none 2 SessionApi.emptyRegistry
        [[{ originalname := "a", path := "/tmp/uploads/abc/2-a", mimetype := "", size := 1 },
          { originalname := "b", path := "/tmp/uploads/abc/2-b", mimetype := "", size := 1 }],
         [{ originalname := "c", path := "/tmp/uploads/abc/2-c", mimetype := "", size := 1 }]]).1
      "abc"
      = ["/tmp/uploads/abc/2-a", "/tmp/uploads/abc/2-b", "/tmp/uploads/abc/2-c"]
    ∧ (SessionApi.runUploads (some "abc") none 2 SessionApi.emptyRegistry
        [[{ originalname := "a", path := "/tmp/uploads/abc/2-a", mimetype := "", size := 1 },
          { originalname := "b", path := "/tmp/uploads/abc/2-b", mimetype := "", size := 1 }],
         [{ originalname := "c", path := "/tmp/uploads/abc/2-c", mimetype := "", size := 1 }]]).2
      = [(2, 2), (1, 3)] := by
  have h := upload_accumulation SessionApi.emptyRegistry "abc" (by decide)
    [[{ originalname := "a", path := "/tmp/uploads/abc/2-a", mimetype := "", size := 1 },
      { originalname := "b", path := "/tmp/uploads/abc/2-b", mimetype := "", size := 1 }],
     [{ originalname := "c", path := "/tmp/uploads/abc/2-c", mimetype := "", size := 1 }]] 2
  exact ⟨h.1.trans (by decide), h.2.1.trans (by decide)⟩

/-! ## C1: build consumes the session on success, preserves it on failure -/

/-- C1: for a session key holding a non-empty file list, a build request
that succeeds answers 200 and removes exactly that session from the
registry, and a build request whose archive construction fails answers 500
and leaves the registry — in particular that session and its file list —
unchanged. -/
theorem comprimir_success_removes_failure_preserves (r : SessionApi.Registry)
    (bodyChatId queryChatId : Option String) (now : Nat) (zipOk : List String → Bool)
    (s : SessionApi.Session)
    (hs : r (SessionApi.getChatId bodyChatId queryChatId) = some s)
    (hne : s.files ≠ []) :
    (zipOk s.files = true →
      (SessionApi.comprimirHandler r bodyChatId queryChatId now zipOk).status = 200
      ∧ (SessionApi.comprimirHandler r bodyChatId queryChatId now zipOk).registry
          (SessionApi.getChatId bodyChatId queryChatId) = none
      ∧ ∀ k, k ≠ SessionApi.getChatId bodyChatId queryChatId →
          (SessionApi.comprimirHandler r bodyChatId queryChatId now zipOk).registry k = r k)
    ∧ (zipOk s.files = false →
      (SessionApi.comprimirHandler r bodyChatId queryChatId now zipOk).status = 500
      ∧ (SessionApi.comprimirHandler r bodyChatId queryChatId now zipOk).registry = r) := by
  have hes : SessionApi.ensureSession r (SessionApi.getChatId bodyChatId queryChatId) now
      = (r, s) := by
    unfold SessionApi.ensureSession
    rw [hs]
  have hlen : ¬ s.files.length = 0 := by
    simpa [List.length_eq_zero] using hne
  constructor
  · intro hz
    refine ⟨?_, ?_, ?_⟩
    · simp [SessionApi.comprimirHandler, hes, hlen, hz]
    · simp [SessionApi.comprimirHandler, hes, hlen, hz]
    · intro k hk
      simp [SessionApi.comprimirHandler, hes, hlen, hz, hk]
  · intro hz
    constructor
    · simp [SessionApi.comprimirHandler, hes, hlen, hz]
    · simp [SessionApi.comprimirHandler, hes, hlen, hz]

/-- Witness for `comprimir_success_removes_failure_preserves`: a one-file
session whose build fails is preserved verbatim. -/
theorem comprimir_success_removes_failure_preserves_witness :
    (SessionApi.comprimirHandler
        (fun k => if k = "abc"
          then some { files := ["/tmp/uploads/abc/1-a.jpg"], createdAt := 0 } else none)
        (some "abc") none 9 (fun _ => false)).status = 500
    ∧ (SessionApi.comprimirHandler
        (fun k => if k = "abc"
          then some { files := ["/tmp/uploads/abc/1-a.jpg"], createdAt := 0 } else none)
        (some "abc") none 9 (fun _ => false)).registry
      = (fun k => if k = "abc"
          then some { files := ["/tmp/uploads/abc/1-a.jpg"], createdAt := 0 } else none) :=
  (comprimir_success_removes_failure_preserves _ (some "abc") none 9 _
    { files := ["/tmp/uploads/abc/1-a.jpg"], createdAt := 0 } (by decide) (by decide)).2 rfl

/-! ## C2: build on an absent or empty session -/

/-- C2 is false as stated: a build request on an absent session key does
cause a state change in the Session Registry — the handler ensures the
session before checking for emptiness, so an empty session is inserted for
the key even though the request is rejected with 400. -/
theorem comprimir_empty_registry_change_counterexample :
    (SessionApi.comprimirHandler SessionApi.emptyRegistry
        (some "abc") none 7 (fun _ => true)).status = 400
    ∧ (SessionApi.comprimirHandler SessionApi.emptyRegistry
        (some "abc") none 7 (fun _ => true)).zipCalls = []
    ∧ (SessionApi.comprimirHandler SessionApi.emptyRegistry
        (some "abc") none 7 (fun _ => true)).registry "abc"
      ≠ SessionApi.emptyRegistry "abc" := by
  decide

/-- C2 (amended): building from an absent or empty session key answers 400
and never invokes the archive builder (so no Archive file is created); no
session's file list changes and a present session is left untouched — but
for a previously absent key the handler does insert a fresh empty session
before rejecting. -/
theorem comprimir_empty_rejected_effects (r : SessionApi.Registry)
    (bodyChatId queryChatId : Option String) (now : Nat) (zipOk : List String → Bool)
    (h : ∀ s, r (SessionApi.getChatId bodyChatId queryChatId) = some s → s.files = []) :
    (SessionApi.comprimirHandler r bodyChatId queryChatId now zipOk).status = 400
    ∧ (SessionApi.comprimirHandler r bodyChatId queryChatId now zipOk).zipCalls = []
    ∧ (∀ k, k ≠ SessionApi.getChatId bodyChatId queryChatId →
        (SessionApi.comprimirHandler r bodyChatId queryChatId now zipOk).registry k = r k)
    ∧ (∀ s, r (SessionApi.getChatId bodyChatId queryChatId) = some s →
        (SessionApi.comprimirHandler r bodyChatId queryChatId now zipOk).registry = r)
    ∧ (r (SessionApi.getChatId bodyChatId queryChatId) = none →
        (SessionApi.comprimirHandler r bodyChatId queryChatId now zipOk).registry
          (SessionApi.getChatId bodyChatId queryChatId)
        = some { files := [], createdAt := now }) := by
  cases hr : r (SessionApi.getChatId bodyChatId queryChatId) with
  | some s =>
    have hfe : s.files = [] := h s hr
    have hes : SessionApi.ensureSession r (SessionApi.getChatId bodyChatId queryChatId) now
        = (r, s) := by
      unfold SessionApi.ensureSession
      rw [hr]
    refine ⟨?_, ?_, ?_, ?_, ?_⟩
    · simp [SessionApi.comprimirHandler, hes, hfe]
    · simp [SessionApi.comprimirHandler, hes, hfe]
    · intro k hk
      simp [SessionApi.comprimirHandler, hes, hfe]
    · intro s2 hs2
      simp [SessionApi.comprimirHandler, hes, hfe]
    · intro hnone
      exact Option.noConfusion hnone
  | none =>
    have hes : SessionApi.ensureSession r (SessionApi.getChatId bodyChatId queryChatId) now
        = (fun k => if k = SessionApi.getChatId bodyChatId queryChatId
             then some { files := [], createdAt := now } else r k,
           { files := [], createdAt := now }) := by
      unfold SessionApi.ensureSession
      rw [hr]
    refine ⟨?_, ?_, ?_, ?_, ?_⟩
    · simp [SessionApi.comprimirHandler, hes]
    · simp [SessionApi.comprimirHandler, hes]
    · intro k hk
      simp [SessionApi.comprimirHandler, hes, hk]
    · intro s2 hs2
      exact Option.noConfusion hs2
    · intro _
      simp [SessionApi.comprimirHandler, hes]

/-- Witness for `comprimir_empty_rejected_effects`: a present-but-empty
session is rejected with no registry change at all. -/
theorem comprimir_empty_rejected_effects_witness :
    (SessionApi.comprimirHandler
        (fun k => if k = "abc" then some { files := [], createdAt := 3 } else none)
        (some "abc") none 7 (fun _ => true)).status = 400
    ∧ (SessionApi.comprimirHandler
        (fun k => if k = "abc" then some { files := [], createdAt := 3 } else none)
        (some "abc") none 7 (fun _ => true)).registry
      = (fun k => if k = "abc" then some { files := [], createdAt := 3 } else none) :=
  ⟨(comprimir_empty_rejected_effects _ (some "abc") none 7 _
      (by intro s hs; cases hs; rfl)).1,
   (comprimir_empty_rejected_effects _ (some "abc") none 7 _
      (by intro s hs; cases hs; rfl)).2.2.2.1 { files := [], createdAt := 3 } (by decide)⟩

/-! ## C9: upload with zero file parts -/

/-- C9: an `/upload` request carrying zero file parts (absent or empty
`req.files`) still succeeds with `ok` true and zero files received now; it
inserts an empty session for the resolved key when none existed, and
otherwise leaves the existing session as is, reporting its current total. -/
theorem upload_zero_files_ok (r : SessionApi.Registry)
    (bodyChatId queryChatId : Option String) (now : Nat)
    (reqFiles : Option (List UploadedFile))
    (h : reqFiles = none ∨ reqFiles = some []) :
    (SessionApi.uploadHandler r bodyChatId queryChatId reqFiles now).2.ok = true
    ∧ (SessionApi.uploadHandler r bodyChatId queryChatId reqFiles now).2.recibidasAhora = 0
    ∧ (r (SessionApi.getChatId bodyChatId queryChatId) = none →
        (SessionApi.uploadHandler r bodyChatId queryChatId reqFiles now).1
          (SessionApi.getChatId bodyChatId queryChatId)
        = some { files := [], createdAt := now }
        ∧ (SessionApi.uploadHandler r bodyChatId queryChatId reqFiles now).2.totalSesion = 0)
    ∧ (∀ s, r (SessionApi.getChatId bodyChatId queryChatId) = some s →
        (SessionApi.uploadHandler r bodyChatId queryChatId reqFiles now).1
          (SessionApi.getChatId bodyChatId queryChatId) = some s
        ∧ (SessionApi.uploadHandler r bodyChatId queryChatId reqFiles now).2.totalSesion
            = s.files.length) := by
  have hsaved : (reqFiles.getD []).map (fun f => f.path) = [] := by
    rcases h with rfl | rfl <;> rfl
  cases hr : r (SessionApi.getChatId bodyChatId queryChatId) with
  | some s =>
    have hes : SessionApi.ensureSession r (SessionApi.getChatId bodyChatId queryChatId) now
        = (r, s) := by
      unfold SessionApi.ensureSession
      rw [hr]
    refine ⟨?_, ?_, ?_, ?_⟩
    · simp [SessionApi.uploadHandler, hes, hsaved]
    · simp [SessionApi.uploadHandler, hes, hsaved]
    · intro hnone
      exact Option.noConfusion hnone
    · intro s2 hs2
      have h2 : s = s2 := Option.some.inj hs2
      subst h2
      constructor
      · simp [SessionApi.uploadHandler, hes, hsaved]
      · simp [SessionApi.uploadHandler, hes, hsaved]
  | none =>
    have hes : SessionApi.ensureSession r (SessionApi.getChatId bodyChatId queryChatId) now
        = (fun k => if k = SessionApi.getChatId bodyChatId queryChatId
             then some { files := [], createdAt := now } else r k,
           { files := [], createdAt := now }) := by
      unfold SessionApi.ensureSession
      rw [hr]
    refine ⟨?_, ?_, ?_, ?_⟩
    · simp [SessionApi.uploadHandler, hes, hsaved]
    · simp [SessionApi.uploadHandler, hes, hsaved]
    · intro _
      constructor
      · simp [SessionApi.uploadHandler, hes, hsaved]
      · simp [SessionApi.uploadHandler, hes, hsaved]
    · intro s2 hs2
      exact Option.noConfusion hs2

/-- Witness for `upload_zero_files_ok`: zero parts against an absent key. -/
theorem upload_zero_files_ok_witness :
    (SessionApi.uploadHandler SessionApi.emptyRegistry (some "abc") none none 4).2.ok = true
    ∧ (SessionApi.uploadHandler SessionApi.emptyRegistry (some "abc") none none 4).1 "abc"
        = some { files := [], createdAt := 4 } :=
  ⟨(upload_zero_files_ok SessionApi.emptyRegistry (some "abc") none 4 none (Or.inl rfl)).1,
   ((upload_zero_files_ok SessionApi.emptyRegistry (some "abc") none 4 none
      (Or.inl rfl)).2.2.1 rfl).1⟩

/-! ## C10: stateless cleanup is scheduled only on success -/

/-- C10: in the stateless `/comprimir`, deletion of the uploaded temporary
files is scheduled only on the success path — 5000 ms after the success
response, for exactly the uploaded paths; when archive construction fails
the handler answers 500 and schedules no cleanup, leaving the uploads on
disk. -/
theorem stateless_cleanup_only_on_success (parts : List UploadedFile) (now : Nat)
    (zipOk : List UploadedFile → Bool)
    (hok : (StatelessApi.processParts StatelessApi.MAX_FILES parts).2 = true)
    (hne : (StatelessApi.processParts StatelessApi.MAX_FILES parts).1 ≠ []) :
    (zipOk (StatelessApi.processParts StatelessApi.MAX_FILES parts).1 = true →
      (StatelessApi.comprimirHandler parts now zipOk).status = 200
      ∧ (StatelessApi.comprimirHandler parts now zipOk).cleanupScheduled
        = [(5000, (StatelessApi.processParts StatelessApi.MAX_FILES parts).1.map
             (fun f => f.path))])
    ∧ (zipOk (StatelessApi.processParts StatelessApi.MAX_FILES parts).1 = false →
      (StatelessApi.comprimirHandler parts now zipOk).status = 500
      ∧ (StatelessApi.comprimirHandler parts now zipOk).cleanupScheduled = []) := by
  have hlen : ¬ (StatelessApi.processParts StatelessApi.MAX_FILES parts).1.length = 0 := by
    simpa [List.length_eq_zero] using hne
  constructor <;> intro hz <;>
    constructor <;> simp [StatelessApi.comprimirHandler, hok, hlen, hz]

/-- Witness for `stateless_cleanup_only_on_success`: a failing build answers
500 and leaves the uploaded file alone. -/
theorem stateless_cleanup_only_on_success_witness :
    (StatelessApi.comprimirHandler
        [{ originalname := "a.jpg", path := "/app/uploads/1-2.jpg",
           mimetype := "image/jpeg", size := 10 }] 1 (fun _ => false)).status = 500
    ∧ (StatelessApi.comprimirHandler
        [{ originalname := "a.jpg", path := "/app/uploads/1-2.jpg",
           mimetype := "image/jpeg", size := 10 }] 1 (fun _ => false)).cleanupScheduled = [] :=
  (stateless_cleanup_only_on_success
    [{ originalname := "a.jpg", path := "/app/uploads/1-2.jpg",
       mimetype := "image/jpeg", size := 10 }] 1 (fun _ => false)
    (by decide) (by decide)).2 rfl

/-! ## C6: the stateless allow-list -/

theorem processParts_mem_filter (cap : Nat) (parts : List UploadedFile) :
    ∀ g ∈ (StatelessApi.processParts cap parts).1, StatelessApi.fileFilter g = true := by
  induction parts generalizing cap with
  | nil =>
    intro g hg
    simp [StatelessApi.processParts] at hg
  | cons f rest ih =>
    intro g hg
    cases cap with
    | zero => simp [StatelessApi.processParts] at hg
    | succ n =>
      simp only [StatelessApi.processParts] at hg
      split at hg
      · rename_i hcond
        rcases List.mem_cons.mp hg with rfl | hmem
        · exact hcond.1
        · exact ih n g hmem
      · simp at hg

theorem processParts_fail (cap : Nat) (parts : List UploadedFile) (f : UploadedFile)
    (hf : f ∈ parts) (hff : StatelessApi.fileFilter f = false) :
    (StatelessApi.processParts cap parts).2 = false := by
  induction parts generalizing cap with
  | nil => cases hf
  | cons g rest ih =>
    cases cap with
    | zero => simp [StatelessApi.processParts]
    | succ n =>
      simp only [StatelessApi.processParts]
      split
      · rename_i hcond
        rcases List.mem_cons.mp hf with rfl | hmem
        · rw [hff] at hcond
          exact absurd hcond.1 (by simp)
        · simpa using ih n hmem
      · rfl

/-- C6 is false as stated: the filter tests the regex by substring, so the
extension `zipx` — outside the allow-list {jpeg, jpg, png, gif, pdf, zip} —
is accepted when the declared MIME type also matches, and the request
succeeds instead of being rejected. -/
theorem fileFilter_substring_counterexample :
    ((toLowerStr (extname "a.zipx")).data.drop 1
        ∉ (StatelessApi.allowTokens.map String.data))
    ∧ (StatelessApi.comprimirHandler
        [{ originalname := "a.zipx", path := "/app/uploads/1-2.zipx",
           mimetype := "application/zip", size := 4 }] 1 (fun _ => true)).status = 200
    ∧ (StatelessApi.comprimirHandler
        [{ originalname := "a.zipx", path := "/app/uploads/1-2.zipx",
           mimetype := "application/zip", size := 4 }] 1 (fun _ => true)).files
      = [{ originalname := "a.zipx", path := "/app/uploads/1-2.zipx",
           mimetype := "application/zip", size := 4 }] := by
  decide

/-- C6 (amended): in the stateless variant, any file part whose declared
MIME type fails the substring test against jpeg|jpg|png|gif|pdf|zip, or
whose lowercased extension fails that substring test, causes the entire
request to be rejected with a 400 `UPLOAD_ERROR` and that part never
reaches the Blob Store (membership is substring containment, not exact
membership of the allow-list, so e.g. extension `zipx` passes). -/
theorem upload_reject_outside_allowlist (parts : List UploadedFile) (f : UploadedFile)
    (now : Nat) (zipOk : List UploadedFile → Bool) (hf : f ∈ parts)
    (hbad : StatelessApi.regexTest f.mimetype = false
          ∨ StatelessApi.regexTest (toLowerStr (extname f.originalname)) = false) :
    (StatelessApi.comprimirHandler parts now zipOk).status = 400
    ∧ (StatelessApi.comprimirHandler parts now zipOk).code = "UPLOAD_ERROR"
    ∧ f ∉ (StatelessApi.comprimirHandler parts now zipOk).files := by
  have hff : StatelessApi.fileFilter f = false := by
    unfold StatelessApi.fileFilter
    rcases hbad with h | h <;> simp [h]
  have hp2 : (StatelessApi.processParts StatelessApi.MAX_FILES parts).2 = false :=
    processParts_fail StatelessApi.MAX_FILES parts f hf hff
  refine ⟨?_, ?_, ?_⟩
  · simp [StatelessApi.comprimirHandler, hp2]
  · simp [StatelessApi.comprimirHandler, hp2]
  · intro hmem
    have hmem2 : f ∈ (StatelessApi.processParts StatelessApi.MAX_FILES parts).1 := by
      simpa [StatelessApi.comprimirHandler, hp2] using hmem
    have := processParts_mem_filter StatelessApi.MAX_FILES parts f hmem2
    rw [hff] at this
    cases this

/-- Witness for `upload_reject_outside_allowlist`: an HTML part is rejected
and never written. -/
theorem upload_reject_outside_allowlist_witness :
    (StatelessApi.comprimirHandler
        [{ originalname := "a.html", path := "/app/uploads/1-2.html",
           mimetype := "text/html", size := 4 }] 1 (fun _ => true)).status = 400
    ∧ (StatelessApi.comprimirHandler
        [{ originalname := "a.html", path := "/app/uploads/1-2.html",
           mimetype := "text/html", size := 4 }] 1 (fun _ => true)).code = "UPLOAD_ERROR"
    ∧ { originalname := "a.html", path := "/app/uploads/1-2.html",
        mimetype := "text/html", size := 4 }
      ∉ (StatelessApi.comprimirHandler
        [{ originalname := "a.html", path := "/app/uploads/1-2.html",
           mimetype := "text/html", size := 4 }] 1 (fun _ => true)).files :=
  upload_reject_outside_allowlist _ _ 1 _ (List.mem_singleton.mpr rfl) (Or.inl (by decide))

/-! ## Path lemmas

Structural facts about `splitSegs`, `normStep`, `joinSegs` and
`basenameChars`, used for the delivery-route containment analysis (C3) and
the in-archive entry names (C4). -/

theorem splitSegsAux_ne_nil (xs cur : List Char) : splitSegsAux xs cur ≠ [] := by
  induction xs generalizing cur with
  | nil => simp [splitSegsAux]
  | cons c rest ih =>
    by_cases hc : c = '/'
    · simp [splitSegsAux, hc]
    · simp [splitSegsAux, hc, ih]

theorem splitSegsAux_append_slash (xs ys cur : List Char) :
    splitSegsAux (xs ++ '/' :: ys) cur = splitSegsAux xs cur ++ splitSegsAux ys [] := by
  induction xs generalizing cur with
  | nil => simp [splitSegsAux]
  | cons c rest ih =>
    by_cases hc : c = '/'
    · simp [splitSegsAux, hc, ih]
    · simp [splitSegsAux, hc, ih]

theorem splitSegsAux_no_slash (xs cur : List Char) (h : '/' ∉ xs) :
    splitSegsAux xs cur = [cur.reverse ++ xs] := by
  induction xs generalizing cur with
  | nil => simp [splitSegsAux]
  | cons c rest ih =>
    have hc : ¬ c = '/' := fun hcc => h (by simp [hcc])
    have hr : '/' ∉ rest := fun hm => h (by simp [hm])
    simp [splitSegsAux, hc, ih, hr]

theorem mem_splitSegsAux_no_slash (xs cur : List Char) (hcur : '/' ∉ cur) :
    ∀ seg ∈ splitSegsAux xs cur, '/' ∉ seg := by
  induction xs generalizing cur with
  | nil =>
    intro seg hseg
    simp [splitSegsAux] at hseg
    subst hseg
    simpa using hcur
  | cons c rest ih =>
    intro seg hseg
    by_cases hc : c = '/'
    · rw [hc] at hseg
      simp [splitSegsAux] at hseg
      rcases hseg with rfl | hseg
      · simpa using hcur
      · exact ih [] (by simp) seg hseg
    · simp [splitSegsAux, hc] at hseg
      refine ih (c :: cur) ?_ seg hseg
      intro hm
      rcases List.mem_cons.mp hm with hm1 | hm2
      · exact hc hm1.symm
      · exact hcur hm2

theorem mem_splitSegs_no_slash (xs : List Char) :
    ∀ seg ∈ splitSegs xs, '/' ∉ seg :=
  mem_splitSegsAux_no_slash xs [] (by simp)

theorem splitSegs_append_slash (xs ys : List Char) :
    splitSegs (xs ++ '/' :: ys) = splitSegs xs ++ splitSegs ys :=
  splitSegsAux_append_slash xs ys []

theorem splitSegs_no_slash (xs : List Char) (h : '/' ∉ xs) : splitSegs xs = [xs] := by
  have hx := splitSegsAux_no_slash xs [] h
  simpa [splitSegs] using hx

theorem normStep_skip (ab : Bool) (acc : List (List Char)) (sg : List Char)
    (h : sg = [] ∨ sg = ['.']) : normStep ab acc sg = acc := by
  unfold normStep
  rw [if_pos h]

theorem normStep_push (ab : Bool) (acc : List (List Char)) (sg : List Char)
    (h1 : ¬ (sg = [] ∨ sg = ['.'])) (h2 : sg ≠ dd) : normStep ab acc sg = sg :: acc := by
  unfold normStep
  rw [if_neg h1, if_neg h2]

theorem normStep_dd_nil (ab : Bool) :
    normStep ab [] dd = if ab then [] else [dd] := by
  unfold normStep
  rw [if_neg (by decide), if_pos rfl]

theorem normStep_dd_cons (ab : Bool) (a : List Char) (rest : List (List Char)) :
    normStep ab (a :: rest) dd = if a = dd then dd :: a :: rest else rest := by
  unfold normStep
  rw [if_neg (by decide), if_pos rfl]

theorem normStep_no_slash (ab : Bool) (acc : List (List Char)) (sg : List Char)
    (hacc : ∀ s ∈ acc, '/' ∉ s) (hsg : '/' ∉ sg) :
    ∀ s ∈ normStep ab acc sg, '/' ∉ s := by
  have hdd : ('/' : Char) ∉ dd := by decide
  by_cases h1 : sg = [] ∨ sg = ['.']
  · rw [normStep_skip ab acc sg h1]
    exact hacc
  · by_cases h2 : sg = dd
    · subst h2
      cases acc with
      | nil =>
        rw [normStep_dd_nil]
        cases ab with
        | true =>
          intro s hs
          simp at hs
        | false =>
          intro s hs
          simp at hs
          subst hs
          exact hdd
      | cons a rest =>
        rw [normStep_dd_cons]
        by_cases h3 : a = dd
        · rw [if_pos h3]
          intro s hs
          rcases List.mem_cons.mp hs with rfl | hs2
          · exact hdd
          · exact hacc s hs2
        · rw [if_neg h3]
          intro s hs
          exact hacc s (List.mem_cons_of_mem a hs)
    · rw [normStep_push ab acc sg h1 h2]
      intro s hs
      rcases List.mem_cons.mp hs with rfl | hs2
      · exact hsg
      · exact hacc s hs2

theorem foldl_normStep_no_slash (ab : Bool) (segs : List (List Char))
    (acc : List (List Char)) (hacc : ∀ s ∈ acc, '/' ∉ s)
    (hsegs : ∀ s ∈ segs, '/' ∉ s) :
    ∀ s ∈ segs.foldl (normStep ab) acc, '/' ∉ s := by
  induction segs generalizing acc with
  | nil => simpa using hacc
  | cons sg rest ih =>
    intro s hs
    refine ih (normStep ab acc sg)
      (normStep_no_slash ab acc sg hacc (hsegs sg (by simp)))
      (fun t ht => hsegs t (by simp [ht])) s ?_
    simpa using hs

theorem foldl_normStep_no_dd (ab : Bool) (segs : List (List Char))
    (acc : List (List Char)) (h : ∀ s ∈ segs, s ≠ dd) :
    segs.foldl (normStep ab) acc
      = (segs.filter (fun s => decide (¬ (s = [] ∨ s = ['.'])))).reverse ++ acc := by
  induction segs generalizing acc with
  | nil => simp
  | cons sg rest ih =>
    have hsg : sg ≠ dd := h sg (by simp)
    have hrest : ∀ s ∈ rest, s ≠ dd := fun s hs => h s (by simp [hs])
    by_cases hskip : sg = [] ∨ sg = ['.']
    · rw [List.foldl_cons, normStep_skip ab acc sg hskip, ih acc hrest,
        List.filter_cons, if_neg (by simp only [decide_eq_true_eq]; exact fun hc => hc hskip)]
    · rw [List.foldl_cons, normStep_push ab acc sg hskip hsg, ih (sg :: acc) hrest,
        List.filter_cons, if_pos (by simpa using hskip), List.reverse_cons,
        List.append_assoc]
      rfl

theorem joinSegs_append_singleton (l : List (List Char)) (f : List Char) (hl : l ≠ []) :
    joinSegs (l ++ [f]) = joinSegs l ++ '/' :: f := by
  induction l with
  | nil => cases hl rfl
  | cons a rest ih =>
    cases rest with
    | nil => simp [joinSegs]
    | cons b rest2 =>
      show a ++ '/' :: joinSegs ((b :: rest2) ++ [f])
          = (a ++ '/' :: joinSegs (b :: rest2)) ++ '/' :: f
      rw [ih (by simp)]
      simp [List.append_assoc]

theorem splitSegs_joinSegs (l : List (List Char)) (hl : l ≠ [])
    (h : ∀ s ∈ l, '/' ∉ s) :
    splitSegs (joinSegs l) = l := by
  induction l with
  | nil => cases hl rfl
  | cons a rest ih =>
    cases rest with
    | nil =>
      show splitSegs a = [a]
      exact splitSegs_no_slash a (h a (by simp))
    | cons b rest2 =>
      have hb : splitSegs (joinSegs (b :: rest2)) = b :: rest2 :=
        ih (by simp) (fun s hs => h s (List.mem_cons_of_mem a hs))
      have ha : '/' ∉ a := h a (by simp)
      show splitSegs (a ++ '/' :: joinSegs (b :: rest2)) = a :: b :: rest2
      rw [splitSegs_append_slash, splitSegs_no_slash a ha, hb]
      rfl

theorem dropTrailingSlashes_append (xs f : List Char) (hf : f ≠ []) (h : '/' ∉ f) :
    dropTrailingSlashes (xs ++ f) = xs ++ f := by
  have hrev : f.reverse ≠ [] := by simpa using hf
  cases hfr : f.reverse with
  | nil => exact absurd hfr hrev
  | cons c l =>
    have hc : c ∈ f := by
      have hm : c ∈ f.reverse := by rw [hfr]; simp
      simpa using hm
    have hcs : ¬ (c = '/') := fun hcc => h (hcc ▸ hc)
    have hL : (xs ++ f).reverse = c :: (l ++ xs.reverse) := by
      rw [List.reverse_append, hfr]
      simp
    unfold dropTrailingSlashes
    rw [hL, List.dropWhile_cons_of_neg (by simpa using hcs), ← hL, List.reverse_reverse]

theorem basenameChars_joinSegs (l : List (List Char)) (f : List Char) (hf : f ≠ [])
    (hs : '/' ∉ f) (hl : ∀ s ∈ l, '/' ∉ s) :
    basenameChars (joinSegs (l ++ [f])) = f
    ∧ basenameChars ('/' :: joinSegs (l ++ [f])) = f := by
  have hlne : l ++ [f] ≠ [] := by simp
  have hlns : ∀ s ∈ l ++ [f], '/' ∉ s := by
    intro s hm
    rcases List.mem_append.mp hm with hm1 | hm2
    · exact hl s hm1
    · rcases List.mem_singleton.mp hm2 with rfl
      exact hs
  have hsplit : splitSegs (joinSegs (l ++ [f])) = l ++ [f] :=
    splitSegs_joinSegs _ hlne hlns
  have hbody : ∃ xs, joinSegs (l ++ [f]) = xs ++ f := by
    cases l with
    | nil => exact ⟨[], by simp [joinSegs]⟩
    | cons a rest =>
      refine ⟨joinSegs (a :: rest) ++ ['/'], ?_⟩
      rw [joinSegs_append_singleton _ _ (by simp)]
      simp
  obtain ⟨xs, hxs⟩ := hbody
  constructor
  · unfold basenameChars
    rw [hxs, dropTrailingSlashes_append xs f hf hs, ← hxs, hsplit]
    exact List.getLastD_concat [] f l
  · unfold basenameChars
    have hxs2 : '/' :: joinSegs (l ++ [f]) = ('/' :: xs) ++ f := by
      rw [hxs]
      simp
    rw [hxs2, dropTrailingSlashes_append _ f hf hs, ← hxs2]
    have hsplit2 : splitSegs ('/' :: joinSegs (l ++ [f]))
        = [] :: splitSegs (joinSegs (l ++ [f])) := by
      simp [splitSegs, splitSegsAux]
    rw [hsplit2, hsplit]
    show (([] : List Char) :: (l ++ [f])).getLastD [] = f
    rw [List.getLastD_cons]
    exact List.getLastD_concat [] f l

theorem normalizeChars_eq (p : List Char) :
    normalizeChars p
      = (if isAbsolute p
          then '/' :: joinSegs (((splitSegs p).foldl (normStep (isAbsolute p)) []).reverse)
          else if joinSegs (((splitSegs p).foldl (normStep (isAbsolute p)) []).reverse) = []
            then ['.']
            else joinSegs (((splitSegs p).foldl (normStep (isAbsolute p)) []).reverse)) :=
  rfl

theorem basenameChars_normalize_append (d f : List Char) (hf : f ≠ [])
    (hs : '/' ∉ f) (h1 : f ≠ ['.']) (h2 : f ≠ dd) :
    basenameChars (normalizeChars (d ++ '/' :: f)) = f := by
  have hsplit : splitSegs (d ++ '/' :: f) = splitSegs d ++ [f] := by
    rw [splitSegs_append_slash, splitSegs_no_slash f hs]
  have hstack : ∀ s ∈ (splitSegs d).foldl (normStep (isAbsolute (d ++ '/' :: f))) [],
      '/' ∉ s :=
    foldl_normStep_no_slash _ _ [] (by intro s hs2; cases hs2) (mem_splitSegs_no_slash d)
  have hfold : (splitSegs (d ++ '/' :: f)).foldl (normStep (isAbsolute (d ++ '/' :: f))) []
      = f :: (splitSegs d).foldl (normStep (isAbsolute (d ++ '/' :: f))) [] := by
    rw [hsplit, List.foldl_append]
    show normStep _ _ f = _
    rw [normStep_push _ _ f (by tauto) h2]
  have hbn := basenameChars_joinSegs
    (((splitSegs d).foldl (normStep (isAbsolute (d ++ '/' :: f))) []).reverse) f hf hs
    (fun s hm => hstack s (List.mem_reverse.mp hm))
  cases hab : isAbsolute (d ++ '/' :: f) with
  | true =>
    rw [hab] at hfold hbn
    rw [normalizeChars_eq, hab, if_pos rfl, hfold, List.reverse_cons]
    exact hbn.2
  | false =>
    rw [hab] at hfold hbn
    have hbodyne : joinSegs
        ((((splitSegs d).foldl (normStep false) []).reverse) ++ [f]) ≠ [] := by
      cases hl : ((splitSegs d).foldl (normStep false) []).reverse with
      | nil => simpa [joinSegs] using hf
      | cons a rest =>
        rw [joinSegs_append_singleton _ _ (by simp)]
        simp
    rw [normalizeChars_eq, hab, if_neg (by simp), hfold, List.reverse_cons,
      if_neg hbodyne]
    exact hbn.1

/-! ## Storage-name shape lemmas -/

theorem digitChar_props (d : Nat) :
    SessionApi.isSafeChar (digitChar d) = true ∧ digitChar d ≠ '/' ∧ digitChar d ≠ '.' := by
  unfold digitChar
  repeat' split
  all_goals exact (by decide)

theorem natToCharsAux_shape (fuel : Nat) : ∀ (n : Nat) (acc : List Char),
    ∃ pre, natToCharsAux fuel n acc = pre ++ acc
      ∧ ∀ c ∈ pre, ∃ d, c = digitChar d := by
  induction fuel with
  | zero => exact fun n acc => ⟨[], rfl, by simp⟩
  | succ m ih =>
    intro n acc
    by_cases h : n < 10
    · refine ⟨[digitChar n], by simp [natToCharsAux, h], ?_⟩
      intro c hc
      rcases List.mem_singleton.mp hc with rfl
      exact ⟨n, rfl⟩
    · obtain ⟨pre, hpre, hmem⟩ := ih (n / 10) (digitChar (n % 10) :: acc)
      refine ⟨pre ++ [digitChar (n % 10)], by simp [natToCharsAux, h, hpre], ?_⟩
      intro c hc
      rcases List.mem_append.mp hc with hm | hm
      · exact hmem c hm
      · rcases List.mem_singleton.mp hm with rfl
        exact ⟨n % 10, rfl⟩

theorem natToString_shape (n : Nat) :
    (natToString n).data ≠ []
    ∧ ∀ c ∈ (natToString n).data, ∃ d, c = digitChar d := by
  constructor
  · show natToCharsAux (n + 1) n [] ≠ []
    by_cases h : n < 10
    · simp [natToCharsAux, h]
    · obtain ⟨pre, hpre, _⟩ := natToCharsAux_shape n (n / 10) [digitChar (n % 10)]
      simp [natToCharsAux, h, hpre]
  · show ∀ c ∈ natToCharsAux (n + 1) n [], _
    obtain ⟨pre, hpre, hmem⟩ := natToCharsAux_shape (n + 1) n []
    rw [hpre]
    intro c hc
    exact hmem c (by simpa using hc)

theorem storageFilename_data (now : Nat) (orig : String) :
    (SessionApi.storageFilename now orig).data
      = (natToString now).data ++ '-' :: (SessionApi.sanitize orig).data := by
  have hdash : ("-" : String).data = ['-'] := rfl
  simp [SessionApi.storageFilename, data_append, hdash]

theorem storageFilename_safe (now : Nat) (orig : String) :
    ∀ c ∈ (SessionApi.storageFilename now orig).data, SessionApi.isSafeChar c = true := by
  rw [storageFilename_data]
  intro c hc
  rcases List.mem_append.mp hc with hm | hm
  · obtain ⟨d, rfl⟩ := (natToString_shape now).2 c hm
    exact (digitChar_props d).1
  · rcases List.mem_cons.mp hm with rfl | hm2
    · decide
    · have hmap : (SessionApi.sanitize orig).data
          = orig.data.map SessionApi.sanitizeChar := rfl
      rw [hmap] at hm2
      obtain ⟨c0, _, rfl⟩ := List.mem_map.mp hm2
      unfold SessionApi.sanitizeChar
      split
      · assumption
      · decide

theorem storageFilename_no_slash (now : Nat) (orig : String) :
    '/' ∉ (SessionApi.storageFilename now orig).data :=
  fun hm => absurd (storageFilename_safe now orig '/' hm) (by decide)

theorem storageFilename_shape (now : Nat) (orig : String) :
    (SessionApi.storageFilename now orig).data ≠ []
    ∧ (SessionApi.storageFilename now orig).data ≠ ['.']
    ∧ (SessionApi.storageFilename now orig).data ≠ dd := by
  obtain ⟨hne, hdig⟩ := natToString_shape now
  rw [storageFilename_data]
  cases hn : (natToString now).data with
  | nil => exact absurd hn hne
  | cons c0 t =>
    obtain ⟨d, rfl⟩ := hdig c0 (by rw [hn]; simp)
    have hdot : digitChar d ≠ '.' := (digitChar_props d).2.2
    refine ⟨by simp, ?_, ?_⟩
    · intro h
      simp only [List.cons_append, List.cons.injEq] at h
      exact hdot h.1
    · intro h
      rw [show dd = ['.', '.'] from rfl] at h
      simp only [List.cons_append, List.cons.injEq] at h
      exact hdot h.1

theorem storageFilename_length (now : Nat) (orig : String) :
    SessionApi.storageFilename now orig ≠ orig := by
  intro h
  have hd2 := congrArg String.data h
  rw [storageFilename_data] at hd2
  have hlen := congrArg List.length hd2
  have hmap : (SessionApi.sanitize orig).data = orig.data.map SessionApi.sanitizeChar := rfl
  simp [List.length_append, hmap] at hlen
  have hne := (natToString_shape now).1
  have : (natToString now).data.length ≠ 0 := fun h0 => hne (List.length_eq_zero.mp h0)
  omega

theorem basename_pathJoin (dir f : String) (hd : dir ≠ "") (hf : f.data ≠ [])
    (hs : '/' ∉ f.data) (h1 : f.data ≠ ['.']) (h2 : f.data ≠ dd) :
    basename (pathJoin dir f) = f := by
  have hdd2 : dir.data ≠ [] := data_ne_nil_of_ne_empty hd
  unfold pathJoin pathJoinChars
  rw [if_neg hdd2, if_neg hf]
  show String.mk (basenameChars (normalizeChars (dir.data ++ '/' :: f.data))) = f
  rw [basenameChars_normalize_append dir.data f.data hf hs h1 h2]

/-! ## C4: in-archive entry names -/

/-- C4 is false as stated: in the session variant the in-archive entry name
of a stored upload is `path.basename` of the stored path — the generated
storage name (here `5-a.txt` for a file originally named `a.txt`) — not the
original client-supplied name. -/
theorem zip_entry_name_counterexample :
    (SessionApi.compressZIPEntries
        [pathJoin (pathJoin SessionApi.UPLOAD_DIR "chat")
          (SessionApi.storageFilename 5 "a.txt")]).map Prod.snd
      = ["5-a.txt"]
    ∧ ("5-a.txt" : String) ≠ "a.txt" := by
  decide

/-- C4 (amended): in the stateless variant (`createZip`) each member's
in-archive entry name is the file's original client-supplied name, falling
back to the basename of its stored path only when the original name is
empty; in the session variant (`compressZIP`) each entry name is the
basename of the stored path, which for a file stored by the session upload
pipeline is the generated storage name — a name that always differs from
the original one. -/
theorem zip_entry_names (files : List UploadedFile) (fs : List String)
    (dir orig : String) (now : Nat) (hd : dir ≠ "") :
    (StatelessApi.createZipEntries files).map Prod.snd
      = files.map (fun f => if f.originalname = "" then basename f.path else f.originalname)
    ∧ (SessionApi.compressZIPEntries fs).map Prod.snd = fs.map basename
    ∧ basename (pathJoin dir (SessionApi.storageFilename now orig))
        = SessionApi.storageFilename now orig
    ∧ SessionApi.storageFilename now orig ≠ orig := by
  obtain ⟨hne, hdot, hdd2⟩ := storageFilename_shape now orig
  refine ⟨?_, ?_, ?_, storageFilename_length now orig⟩
  · simp [StatelessApi.createZipEntries]
  · simp [SessionApi.compressZIPEntries]
  · exact basename_pathJoin dir (SessionApi.storageFilename now orig) hd hne
      (storageFilename_no_slash now orig) hdot hdd2

/-- Witness for `zip_entry_names`: the session storage name `5-a.txt` is
recovered intact by `basename` and differs from the original `a.txt`. -/
theorem zip_entry_names_witness :
    basename (pathJoin "/tmp/uploads/chat" (SessionApi.storageFilename 5 "a.txt"))
      = SessionApi.storageFilename 5 "a.txt"
    ∧ SessionApi.storageFilename 5 "a.txt" ≠ "a.txt" :=
  ⟨(zip_entry_names [] [] "/tmp/uploads/chat" "a.txt" 5 (by decide)).2.2.1,
   (zip_entry_names [] [] "/tmp/uploads/chat" "a.txt" 5 (by decide)).2.2.2⟩

/-! ## C3: delivery-route path containment -/

theorem startsWithChars_append (p r : List Char) : startsWithChars p (p ++ r) = true := by
  induction p with
  | nil => rfl
  | cons a as ih => simp [startsWithChars, ih]

theorem within_output_dir (name : String)
    (hdd : ∀ seg ∈ splitSegs name.data, seg ≠ dd) :
    isWithin "/app/paquetes" (pathJoin "/app/paquetes" name) = true := by
  by_cases hne : name.data = []
  · have hname : name = "" := congrArg String.mk hne
    rw [hname]
    decide
  · unfold pathJoin pathJoinChars
    rw [if_neg (by decide : ¬ (("/app/paquetes" : String).data = [])), if_neg hne]
    have hab : isAbsolute (("/app/paquetes" : String).data ++ '/' :: name.data) = true := rfl
    have h0 : splitSegs (("/app/paquetes" : String).data)
        = [[], ['a', 'p', 'p'], ['p', 'a', 'q', 'u', 'e', 't', 'e', 's']] := by decide
    have h1 : splitSegs (("/app/paquetes" : String).data ++ '/' :: name.data)
        = [[], ['a', 'p', 'p'], ['p', 'a', 'q', 'u', 'e', 't', 'e', 's']]
          ++ splitSegs name.data := by
      rw [splitSegs_append_slash, h0]
    have hacc : List.foldl (normStep true) []
        [[], ['a', 'p', 'p'], ['p', 'a', 'q', 'u', 'e', 't', 'e', 's']]
        = [['p', 'a', 'q', 'u', 'e', 't', 'e', 's'], ['a', 'p', 'p']] := by decide
    have h2 : (splitSegs (("/app/paquetes" : String).data ++ '/' :: name.data)).foldl
          (normStep true) []
        = ((splitSegs name.data).filter
            (fun s => decide (¬ (s = [] ∨ s = ['.'])))).reverse
          ++ [['p', 'a', 'q', 'u', 'e', 't', 'e', 's'], ['a', 'p', 'p']] := by
      rw [h1, List.foldl_append, hacc]
      exact foldl_normStep_no_dd true (splitSegs name.data) _ hdd
    have hfinal : normalizeChars (("/app/paquetes" : String).data ++ '/' :: name.data)
        = '/' :: joinSegs
            ([['a', 'p', 'p'], ['p', 'a', 'q', 'u', 'e', 't', 'e', 's']]
              ++ (splitSegs name.data).filter
                  (fun s => decide (¬ (s = [] ∨ s = ['.'])))) := by
      rw [normalizeChars_eq, hab, if_pos rfl, h2]
      congr 1
      simp [List.reverse_append]
    cases hfil : (splitSegs name.data).filter
        (fun s => decide (¬ (s = [] ∨ s = ['.']))) with
    | nil =>
      rw [hfil] at hfinal
      have heq : String.mk
          (normalizeChars (("/app/paquetes" : String).data ++ '/' :: name.data))
          = "/app/paquetes" := by
        rw [hfinal]
        rfl
      unfold isWithin
      rw [if_pos heq]
    | cons c cs =>
      rw [hfil] at hfinal
      have hform : normalizeChars (("/app/paquetes" : String).data ++ '/' :: name.data)
          = ("/app/paquetes/" : String).data ++ joinSegs (c :: cs) := by
        rw [hfinal]
        rfl
      unfold isWithin
      split
      · rfl
      · show startsWithChars (("/app/paquetes" : String).data ++ ['/']) _ = true
        rw [show (String.mk (normalizeChars
            (("/app/paquetes" : String).data ++ '/' :: name.data))).data
            = normalizeChars (("/app/paquetes" : String).data ++ '/' :: name.data)
          from rfl]
        rw [hform,
          show ("/app/paquetes" : String).data ++ ['/']
            = ("/app/paquetes/" : String).data from rfl]
        exact startsWithChars_append _ _

/-- C3 is false as stated: the download route joins the requested name onto
the output directory with no rejection or confinement of traversal
sequences — the name `../secret` resolves to `/app/secret`, outside the
output directory, and is served whenever such a file exists. -/
theorem descargar_traversal_counterexample :
    isWithin StatelessApi.OUTPUT_DIR
        (pathJoin StatelessApi.OUTPUT_DIR "../secret") = false
    ∧ StatelessApi.descargarHandler (fun _ => true) "../secret"
      = StatelessApi.DescargarResult.download "/app/secret" "../secret" := by
  decide

/-- C3 (amended): `/descargar/:filename` resolves the requested name by
joining it onto the designated output directory; a traversal-free name (one
with no `..` segment) always resolves inside the output directory, and a
name whose resolved file does not exist yields the not-found response — but
the handler does not reject or confine `..` segments, which can make the
resolved location escape the output directory. -/
theorem descargar_resolution_and_not_found (fsExists : String → Bool) (name : String)
    (hdd : ∀ seg ∈ splitSegs name.data, seg ≠ dd) :
    isWithin StatelessApi.OUTPUT_DIR (pathJoin StatelessApi.OUTPUT_DIR name) = true
    ∧ (fsExists (pathJoin StatelessApi.OUTPUT_DIR name) = false →
        StatelessApi.descargarHandler fsExists name
          = StatelessApi.DescargarResult.notFound) := by
  have hOD : StatelessApi.OUTPUT_DIR = "/app/paquetes" := by decide
  constructor
  · rw [hOD]
    exact within_output_dir name hdd
  · intro hex
    unfold StatelessApi.descargarHandler
    simp [hex]

/-- Witness for `descargar_resolution_and_not_found`: a plain archive name
resolves inside the output directory and, absent on disk, yields 404. -/
theorem descargar_resolution_and_not_found_witness :
    isWithin StatelessApi.OUTPUT_DIR
        (pathJoin StatelessApi.OUTPUT_DIR "archivos-7.zip") = true
    ∧ StatelessApi.descargarHandler (fun _ => false) "archivos-7.zip"
      = StatelessApi.DescargarResult.notFound :=
  ⟨(descargar_resolution_and_not_found (fun _ => false) "archivos-7.zip" (by decide)).1,
   (descargar_resolution_and_not_found (fun _ => false) "archivos-7.zip" (by decide)).2 rfl⟩

end ComprimirFotos
